import Mathlib

/-!
Verification development for the dbwiki content service (frontend sources plus
spec-modelled backend core).  Definitions are shallow embeddings of the
TypeScript/Vue sources under `src/frontend`; backend operations that are not
part of the shipped sources (draft concurrency controller, publish pipeline,
gapped tree store) are modelled from the specification and marked as such.
-/

namespace DbWiki

/-! ## Tiptap document trees

The rich-text document is an opaque JSON tree.  A node may carry a `type`
string, a `text` string, heading `attrs.level`, a list of marks, and an
optional `content` array of child nodes.  Absent JSON fields are `Option.none`;
JavaScript truthiness on strings treats the empty string like an absent field.
-/

inductive TipMark : Type where
  | bold
  | italic
  | code
  | strike
  | link (href : String)
  | other (name : String)
deriving DecidableEq, Repr

inductive TipNode : Type where
  | mk (ty : Option String) (tx : Option String) (lvl : Option Nat)
       (marks : List TipMark) (content : Option (List TipNode))
deriving Repr

/-- The `type` field of a node. -/
def TipNode.ty : TipNode → Option String
  | .mk t _ _ _ _ => t

/-- The `text` field of a node. -/
def TipNode.tx : TipNode → Option String
  | .mk _ s _ _ _ => s

/-- The `attrs.level` field of a node. -/
def TipNode.lvl : TipNode → Option Nat
  | .mk _ _ l _ _ => l

/-- The `marks` field of a node. -/
def TipNode.marks : TipNode → List TipMark
  | .mk _ _ _ m _ => m

/-- The `content` field of a node (`none` when the JSON field is absent). -/
def TipNode.content : TipNode → Option (List TipNode)
  | .mk _ _ _ _ c => c

/-- The children list a traversal iterates over: `node.content` when present
(and an array), else nothing. -/
def TipNode.childList (n : TipNode) : List TipNode :=
  (n.content).getD []

/-- JavaScript truthiness of an optional string field: absent and `""` are
falsy. -/
def strTruthy : Option String → Bool
  | none => false
  | some s => !(s == "")

/-- JavaScript `x || ""` on an optional string. -/
def strOrEmpty (o : Option String) : String :=
  if strTruthy o then o.getD "" else ""

/-- Whether a `type` field is `'paragraph'` or `'heading'`. -/
def isBlockTy (ty : Option String) : Bool :=
  ty == some "paragraph" || ty == some "heading"

/-- Whether `child.type === 'paragraph' || child.type === 'heading'`. -/
def isBlockChild (n : TipNode) : Bool :=
  isBlockTy n.ty

mutual

/-- Embedding of `extractFromNode` from
`src/frontend/src/composables/useAutosave.ts`: the node's own text, then each
child's extraction followed by a space when the child is a paragraph or
heading. -/
def extractFromNode : TipNode → String
  | .mk _ tx _ _ none => strOrEmpty tx
  | .mk _ tx _ _ (some cs) => strOrEmpty tx ++ extractFromChildren cs

/-- The `for (const child of node.content)` loop of `extractFromNode`. -/
def extractFromChildren : List TipNode → String
  | [] => ""
  | c :: cs =>
      extractFromNode c ++ (if isBlockChild c then " " else "")
        ++ extractFromChildren cs

end

/-- JavaScript whitespace for `String.prototype.trim` (the characters that can
occur here; the traversal itself only ever inserts `' '`). -/
def isJsWhitespace (c : Char) : Bool :=
  c == ' ' || c == '\t' || c == '\n' || c == '\r'

/-- JavaScript `s.trim()`: strip leading and trailing whitespace. -/
def jsTrim (s : String) : String :=
  String.mk (((s.toList.dropWhile isJsWhitespace).reverse.dropWhile
    isJsWhitespace).reverse)

/-- Embedding of `extractPlainText` from `useAutosave.ts`: guard
`if (!json || !json.content) return ''`, else `extractFromNode(json).trim()`.
(A non-null node is the only representable input.) -/
def extractPlainText (j : TipNode) : String :=
  match j.content with
  | none => ""
  | some _ => jsTrim (extractFromNode j)

mutual

/-- Nesting depth of a document tree: the number of stacked recursive calls
`extractFromNode` (and likewise `renderNode` and the outline `traverse`)
performs on the deepest path. -/
def tipDepth : TipNode → Nat
  | .mk _ _ _ _ none => 1
  | .mk _ _ _ _ (some cs) => 1 + tipDepthList cs

/-- Maximum nesting depth over a list of children. -/
def tipDepthList : List TipNode → Nat
  | [] => 0
  | c :: cs => max (tipDepth c) (tipDepthList cs)

end

/-- A paragraph chain nested `n` levels deep: an adversarially deep document
tree. -/
def nestedDoc : Nat → TipNode
  | 0 => .mk (some "paragraph") none none [] none
  | n + 1 => .mk (some "paragraph") none none [] (some [nestedDoc n])

mutual

/-- The plain-text value described by the spec sentence behind claim C4: the
concatenation, in document order, of the text of leaf text nodes, with a
separator inserted after each block-level (paragraph/heading) node. -/
def specPlainTextNode : TipNode → String
  | .mk ty tx _ _ none =>
      (if strTruthy tx then tx.getD "" else "")
        ++ (if isBlockTy ty then " " else "")
  | .mk ty tx _ _ (some cs) =>
      (if strTruthy tx && cs.isEmpty then tx.getD "" else "")
        ++ specPlainTextList cs
        ++ (if isBlockTy ty then " " else "")

/-- Document-order concatenation over a list of sibling nodes. -/
def specPlainTextList : List TipNode → String
  | [] => ""
  | c :: cs => specPlainTextNode c ++ specPlainTextList cs

end

mutual

/-- Every node carrying truthy text is a leaf (no children): the shape of
well-formed Tiptap documents, where text occurs only at text leaves. -/
def textLeaves : TipNode → Bool
  | .mk _ _ _ _ none => true
  | .mk _ tx _ _ (some cs) =>
      (!(strTruthy tx) || cs.isEmpty) && textLeavesList cs

/-- `textLeaves` over a list of siblings. -/
def textLeavesList : List TipNode → Bool
  | [] => true
  | c :: cs => textLeaves c && textLeavesList cs

end

/-! ## Rendering and the table of contents

`renderContent` in `src/frontend/src/views/cms/PageView.vue` walks the Tiptap
tree building an HTML string, assigning `id="heading-<k>"` to heading elements
from a counter that is incremented *after* the heading's children have been
rendered.  `extractHeadings` in the PageOutline component assigns
`heading-<k>` to heading nodes in pre-order.  `RenderOut.anchors` records the
id attributes of the heading elements present in the produced HTML, in
document order of those elements.
-/

/-- One mark application of `renderNode`'s text branch. -/
def applyMark (m : TipMark) (t : String) : String :=
  match m with
  | .bold => "<strong>" ++ t ++ "</strong>"
  | .italic => "<em>" ++ t ++ "</em>"
  | .code => "<code>" ++ t ++ "</code>"
  | .strike => "<s>" ++ t ++ "</s>"
  | .link href =>
      "<a href=\"" ++ href ++ "\" class=\"text-primary hover:underline\">"
        ++ t ++ "</a>"
  | .other _ => t

/-- The `for (const mark of node.marks)` loop wrapping the text. -/
def applyMarks (ms : List TipMark) (t : String) : String :=
  ms.foldl (fun acc m => applyMark m acc) t

/-- `node.attrs?.level || 1`. -/
def levelOrOne : Option Nat → Nat
  | none => 1
  | some 0 => 1
  | some (k + 1) => k + 1

/-- Output of the renderer: the HTML string, the heading anchor ids present in
it (in document order), and the heading counter after rendering. -/
structure RenderOut where
  html : String
  anchors : List String
  next : Nat
deriving Repr, DecidableEq

/-- Node types whose `renderNode` case returns a fixed string, discarding the
rendered children HTML. -/
def voidTy (ty : Option String) : Bool :=
  ty == some "horizontalRule" || ty == some "image" || ty == some "hardBreak"

/-- Whether a `type` field is `'heading'`. -/
def headingTy (ty : Option String) : Bool :=
  ty == some "heading"

/-- The HTML string built by the `switch (node.type)` of `renderNode` from the
children output `c`.  Image `src`/`alt` attributes are abstracted (no claim
depends on them). -/
def switchHtml (ty : Option String) (lvl : Option Nat) (c : RenderOut) :
    String :=
  if ty == some "doc" then c.html
  else if ty == some "paragraph" then
    "<p>" ++ (if c.html == "" then "<br>" else c.html) ++ "</p>"
  else if ty == some "heading" then
    "<h" ++ toString (levelOrOne lvl) ++ " id=\"heading-"
      ++ toString c.next ++ "\">" ++ c.html ++ "</h"
      ++ toString (levelOrOne lvl) ++ ">"
  else if ty == some "bulletList" then "<ul>" ++ c.html ++ "</ul>"
  else if ty == some "orderedList" then "<ol>" ++ c.html ++ "</ol>"
  else if ty == some "listItem" then "<li>" ++ c.html ++ "</li>"
  else if ty == some "codeBlock" then
    "<pre><code>" ++ c.html ++ "</code></pre>"
  else if ty == some "blockquote" then
    "<blockquote>" ++ c.html ++ "</blockquote>"
  else if ty == some "horizontalRule" then "<hr>"
  else if ty == some "image" then "<img/>"
  else if ty == some "hardBreak" then "<br>"
  else c.html

/-- The `switch (node.type)` of `renderNode`, applied to the children output
`c`.  Per branch of the JS switch: only the heading case consumes and emits an
anchor id (`heading-<counter>`, counter incremented afterwards); the void
cases (`horizontalRule`/`image`/`hardBreak`) return a fixed string, so the
children's anchors are absent from the produced HTML; every other case embeds
the children HTML — and with it their anchors — unchanged. -/
def renderSwitch (ty : Option String) (lvl : Option Nat) (c : RenderOut) :
    RenderOut :=
  ⟨switchHtml ty lvl c,
    if headingTy ty then ("heading-" ++ toString c.next) :: c.anchors
    else if voidTy ty then []
    else c.anchors,
    if headingTy ty then c.next + 1 else c.next⟩

mutual

/-- Embedding of `renderNode` from `PageView.vue`: text nodes return marked-up
text; otherwise the children are rendered first (threading the heading
counter), then the type switch runs — so a heading's id is drawn from the
counter *after* its children consumed indices. -/
def renderNode : TipNode → Nat → RenderOut
  | .mk ty tx lvl mks none, i =>
      if strTruthy tx then ⟨applyMarks mks (tx.getD ""), [], i⟩
      else renderSwitch ty lvl ⟨"", [], i⟩
  | .mk ty tx lvl mks (some cs), i =>
      if strTruthy tx then ⟨applyMarks mks (tx.getD ""), [], i⟩
      else renderSwitch ty lvl (renderChildren cs i)

/-- `node.content.map(renderNode).join('')` with the heading counter threaded
left to right. -/
def renderChildren : List TipNode → Nat → RenderOut
  | [], i => ⟨"", [], i⟩
  | c :: cs, i =>
      let r := renderNode c i
      let rs := renderChildren cs r.next
      ⟨r.html ++ rs.html, r.anchors ++ rs.anchors, rs.next⟩

end

/-- Embedding of `renderContent` from `PageView.vue` (non-null input): render
the root with the heading counter starting at 0. -/
def renderContent (j : TipNode) : RenderOut :=
  renderNode j 0

/-- Table-of-contents entry produced by `extractHeadings`. -/
structure Heading where
  id : String
  text : String
  level : Nat
deriving Repr, DecidableEq

/-- `node.content?.map((n) => n.text || '').join('') || 'Untitled'`. -/
def headingTextOf (content : Option (List TipNode)) : String :=
  match content with
  | none => "Untitled"
  | some cs =>
      let s := String.join (cs.map (fun c => strOrEmpty c.tx))
      if s == "" then "Untitled" else s

mutual

/-- Embedding of `traverse` inside `extractHeadings` (PageOutline component,
`src/unnamed/part_003`): pre-order walk pushing a `heading-<k>` entry at each
heading node, `k` drawn from a counter incremented at push time. -/
def traverseHeadings : TipNode → Nat → List Heading × Nat
  | .mk ty _ lvl _ none, i =>
      if ty == some "heading" then
        ([⟨"heading-" ++ toString i, headingTextOf none, levelOrOne lvl⟩],
          i + 1)
      else ([], i)
  | .mk ty _ lvl _ (some cs), i =>
      let own : List Heading × Nat :=
        if ty == some "heading" then
          ([⟨"heading-" ++ toString i, headingTextOf (some cs),
              levelOrOne lvl⟩], i + 1)
        else ([], i)
      let rest := traverseHeadingsList cs own.2
      (own.1 ++ rest.1, rest.2)

/-- `node.content.forEach(traverse)`. -/
def traverseHeadingsList : List TipNode → Nat → List Heading × Nat
  | [], i => ([], i)
  | c :: cs, i =>
      let r := traverseHeadings c i
      let rest := traverseHeadingsList cs r.2
      (r.1 ++ rest.1, rest.2)

end

/-- Embedding of `extractHeadings`: guard `if (!json || !json.content) return
[]`, else pre-order traversal from counter 0. -/
def extractHeadings (j : TipNode) : List Heading :=
  match j.content with
  | none => []
  | some _ => (traverseHeadings j 0).1

/-- The anchor ids the table of contents targets, in order. -/
def tocAnchors (j : TipNode) : List String :=
  (extractHeadings j).map (fun h => h.id)

/-- The anchor ids the renderer writes into the page HTML, in document order.
-/
def renderAnchors (j : TipNode) : List String :=
  (renderContent j).anchors

mutual

/-- No heading node anywhere in the subtree (the node itself included). -/
def headingFree : TipNode → Bool
  | .mk ty _ _ _ none => !(headingTy ty)
  | .mk ty _ _ _ (some cs) => !(headingTy ty) && headingFreeList cs

/-- `headingFree` over a list of siblings. -/
def headingFreeList : List TipNode → Bool
  | [] => true
  | c :: cs => headingFree c && headingFreeList cs

end

mutual

/-- Headings are well-formed blocks: no heading carries truthy text, and no
heading, text-bearing node, or void-rendered node (`horizontalRule`, `image`,
`hardBreak`) has a heading anywhere below it.  Real Tiptap documents satisfy
this: headings hold only inline content and text/void nodes are leaves. -/
def tameTree : TipNode → Bool
  | .mk ty tx _ _ none => !(headingTy ty && strTruthy tx)
  | .mk ty tx _ _ (some cs) =>
      (if headingTy ty then !(strTruthy tx) && headingFreeList cs
       else if strTruthy tx || voidTy ty then headingFreeList cs
       else true)
        && tameTreeList cs

/-- `tameTree` over a list of siblings. -/
def tameTreeList : List TipNode → Bool
  | [] => true
  | c :: cs => tameTree c && tameTreeList cs

end

/-! ## Draft concurrency controller and the autosave client

The backend draft store is not part of the shipped sources; it is modelled
from the spec (§4.2).  The client side is the embedding of `saveDraft` in
`src/frontend/src/composables/useAutosave.ts` together with the
`onEtagUpdate`/`onConflict` options `PageView.vue` passes to `useAutosave`.
Concurrency tokens (etags) are opaque non-empty strings in the sources,
modelled as a monotonic counter.
-/

/-- Modelled from the spec: the stored draft row of a page — full draft
content (standing for `draft_json` plus `draft_text`) and the current opaque
concurrency token. -/
structure DraftStore where
  content : String
  token : Nat
deriving Repr, DecidableEq

/-- Outcome of a draft write. -/
inductive WriteOutcome where
  | ok (newToken : Nat)
  | conflict (currentToken : Nat)
deriving Repr, DecidableEq

/-- Modelled from the spec: `PUT /pages/{id}/draft` — if the supplied token
matches the stored token (or is absent, for a first-time write) the content is
replaced in full and a fresh token is issued and returned; otherwise the write
is rejected with `Conflict`, nothing is mutated, and the *current* token is
returned to the caller. -/
def writeDraft (st : DraftStore) (c : String) (supplied : Option Nat) :
    DraftStore × WriteOutcome :=
  match supplied with
  | none => (⟨c, st.token + 1⟩, .ok (st.token + 1))
  | some t =>
      if t = st.token then (⟨c, st.token + 1⟩, .ok (st.token + 1))
      else (st, .conflict st.token)

/-- Client-side autosave state: `useAutosave`'s refs together with
`PageView.vue`'s `currentEtag` (which `onEtagUpdate` assigns). -/
structure AutosaveState where
  etag : Option Nat
  lastSavedContent : Option String
  lastSaved : Option Nat
  hasUnsavedChanges : Bool
  saveError : Option String
deriving Repr, DecidableEq

/-- Observable callback/toast activity of one `saveDraft` completion. -/
inductive ClientEvent where
  | etagUpdated (e : Nat)
  | conflictCb (e : Nat)
  | toastWarn
  | toastError
deriving Repr, DecidableEq

/-- What the autosave request carries back from the backend: success with the
new `draft_etag`, a 409 with the current token in the `etag` response header
(modelled from the spec: the 409 must carry the authoritative current token),
or another failure. -/
inductive SaveResponse where
  | success (draftEtag : Nat)
  | conflict409 (etagHeader : Option Nat)
  | failure (msg : String)
deriving Repr, DecidableEq

/-- The token `saveDraft` supplies with the write:
`etag.value || undefined`. -/
def suppliedToken (st : AutosaveState) : Option Nat :=
  st.etag

/-- Embedding of the completion of `saveDraft` (useAutosave.ts, lines 74–125):
on success, `onEtagUpdate` fires (PageView assigns `currentEtag`), `lastSaved`
and `lastSavedContent` are recorded, `hasUnsavedChanges` clears; on a 409,
`saveError` is set and `onConflict` receives exactly the `etag` response
header (falling back to a toast if the header is absent); on other failures
only `saveError`/a toast.  Errors are swallowed — nothing else changes. -/
def applySaveResult (st : AutosaveState) (currentContent : String) (now : Nat) :
    SaveResponse → AutosaveState × List ClientEvent
  | .success e =>
      ({ st with etag := some e, lastSaved := some now,
                 lastSavedContent := some currentContent,
                 hasUnsavedChanges := false, saveError := none },
        [.etagUpdated e])
  | .conflict409 h =>
      ({ st with saveError := some "Editing conflict detected" },
        match h with
        | some e => [.conflictCb e]
        | none => [.toastWarn])
  | .failure m =>
      ({ st with saveError := some m }, [.toastError])

/-- One full autosave round trip: the client issues the write with its stored
token; the modelled backend answers; the client applies the response (a 409
carries the current token in the `etag` header). -/
def autosaveStep (server : DraftStore) (client : AutosaveState)
    (content : String) (now : Nat) :
    DraftStore × AutosaveState × List ClientEvent :=
  let r := writeDraft server content (suppliedToken client)
  match r.2 with
  | .ok t => (r.1, applySaveResult client content now (.success t))
  | .conflict cur =>
      (r.1, applySaveResult client content now (.conflict409 (some cur)))

/-! ## Version/publish pipeline

Modelled from the spec (§4.3): the backend is not in the shipped sources.
The client side embeds `confirmPublish` from `PageView.vue`.
-/

/-- Modelled from the spec: an immutable published version row (number and
content snapshot; the other columns play no role in the claims). -/
structure PageVersionRow where
  number : Nat
  content : String
deriving Repr, DecidableEq

/-- Modelled from the spec: a page's draft content together with its
append-only version chain. -/
structure PubState where
  draft : String
  versions : List PageVersionRow
deriving Repr, DecidableEq

/-- `max existing version_number`, 0 when none exist. -/
def maxVersionNumber (l : List PageVersionRow) : Nat :=
  l.foldr (fun v m => max v.number m) 0

/-- Modelled from the spec: publish reads the current draft, assigns
`version_number = max existing + 1` (1 when none exist), appends the immutable
snapshot, and does not alter the draft. -/
def publish (s : PubState) : PubState :=
  { s with
      versions := s.versions ++ [⟨maxVersionNumber s.versions + 1, s.draft⟩] }

/-- A draft-edit/publish history. -/
inductive DraftOp where
  | write (c : String)
  | publishOp
deriving Repr, DecidableEq

/-- Run a history against the modelled pipeline. -/
def runOps (s : PubState) : List DraftOp → PubState
  | [] => s
  | .write c :: ops => runOps { s with draft := c } ops
  | .publishOp :: ops => runOps (publish s) ops

/-- The draft content at the moment of each publish in the history: the
reference the claim compares version contents against. -/
def publishSnapshots (d : String) : List DraftOp → List String
  | [] => []
  | .write c :: ops => publishSnapshots c ops
  | .publishOp :: ops => d :: publishSnapshots d ops

/-- Number a list of snapshots consecutively starting at `k`. -/
def numberFrom (k : Nat) : List String → List PageVersionRow
  | [] => []
  | c :: cs => ⟨k, c⟩ :: numberFrom (k + 1) cs

/-- Modelled from the spec: a page row holding the token-guarded draft and the
version chain. -/
structure ServerPage where
  draft : DraftStore
  versions : List PageVersionRow
deriving Repr, DecidableEq

/-- Modelled from the spec: `POST /pages/{id}/publish` against the full page
row. -/
def publishPage (s : ServerPage) : ServerPage × PageVersionRow :=
  let v : PageVersionRow := ⟨maxVersionNumber s.versions + 1, s.draft.content⟩
  ({ s with versions := s.versions ++ [v] }, v)

/-- Embedding of `confirmPublish` (PageView.vue, lines 589–631): `await
saveNow()` — a forced `saveDraft` of the current editor content — then
`publishPage`.  `saveDraft` swallows its own errors, so the publish call is
reached regardless of the save outcome. -/
def confirmPublishModel (s : ServerPage) (editorContent : String)
    (clientEtag : Option Nat) : ServerPage × PageVersionRow :=
  let w := writeDraft s.draft editorContent clientEtag
  publishPage { s with draft := w.1 }

/-! ## Gapped tree store and the drag-drop handler

The backend tree store is modelled from the spec (§4.1); the drag-drop
position calculation and the rollback flow embed `onNodeDrop` from
`src/frontend/src/components/cms/PageTree.vue`.
-/

/-- The spec's large constant increment. -/
def GAP : Int := 1024

/-- Modelled from the spec: where a node is being inserted among its new
siblings. -/
inductive InsertPoint where
  | between (prev next : Int)
  | atEnd (last : Int)
  | empty
deriving Repr, DecidableEq

/-- Modelled from the spec: the Gapped Tree Store's allocation rule —
`floor((prev + next) / 2)` between two siblings, `last + GAP` appending at the
end, `GAP` under an empty parent. -/
def allocatePosition : InsertPoint → Int
  | .between p n => (p + n).fdiv 2
  | .atEnd last => last + GAP
  | .empty => GAP

/-- Embedding of the position calculation in `onNodeDrop` (PageTree.vue,
lines 331–343): dropping onto a target node submits position 1024; dropping
at root index `dropIndex` submits `(dropIndex + 1) * 1024`. -/
def onNodeDropPosition (target : Option String) (dropIndex : Nat) : Int :=
  match target with
  | some _ => 1024
  | none => ((dropIndex : Int) + 1) * 1024

/-- Embedding of the parent calculation in `onNodeDrop`: the target node's
tree-node id, or null at root. -/
def onNodeDropParent (target : Option String) : Option String :=
  target

/-- A stored tree row (arena style, as the spec directs). -/
structure TreeRow where
  id : String
  parent : Option String
  pos : Int
deriving Repr, DecidableEq

/-- Parent lookup by id. -/
def rowParent (rows : List TreeRow) (i : String) : Option String :=
  match rows.find? (fun r => r.id == i) with
  | none => none
  | some r => r.parent

/-- Modelled from the spec: walk the parent chain upward from a node id,
collecting the ids visited, traversal depth bounded by fuel. -/
def ancestorChain (rows : List TreeRow) : Nat → Option String → List String
  | _, none => []
  | 0, some _ => []
  | fuel + 1, some i => i :: ancestorChain rows fuel (rowParent rows i)

/-- Tree-store failure signals from the spec's taxonomy used here. -/
inductive TreeError where
  | CircularReference
  | NotFound
deriving Repr, DecidableEq

/-- Modelled from the spec: `POST /tree/node/{id}/move` — re-parents a node
after walking the target parent's ancestor chain and failing with
`CircularReference` if the moved node appears in that chain; atomic, so an
error leaves the rows unchanged. -/
def moveNode (rows : List TreeRow) (nid : String) (newParent : Option String)
    (newPos : Int) : List TreeRow × Option TreeError :=
  if (ancestorChain rows rows.length newParent).contains nid then
    (rows, some .CircularReference)
  else
    (rows.map (fun r =>
        if r.id == nid then { r with parent := newParent, pos := newPos }
        else r),
      none)

/-- Embedding of the optimistic-update/rollback flow of `onNodeDrop`
(PageTree.vue, lines 344–376): the handler snapshots the displayed tree,
optimistically reloads, issues the move, then on success shows the reloaded
tree and on failure restores the snapshot. -/
def onNodeDropOutcome {α : Type} (oldTree _optimistic reloaded : α)
    (moveErr : Option TreeError) : α :=
  match moveErr with
  | some _ => oldTree
  | none => reloaded

/-! ## `buildTreeStructure`

Embedding of `buildTreeStructure` from `PageTree.vue` (lines 221–260).  The
JavaScript builds a `nodeMap` of display objects for every node with truthy
`page_id`, then pushes each such node into its parent's `children` (when the
parent is in the map) or into `rootNodes`, in input order, mutating shared
objects.  The resulting object graph is denoted here by the per-parent
buckets those pushes produce plus a fuel-bounded materialisation of the
forest reachable from `rootNodes`; for acyclic inputs with distinct ids this
is exactly the displayed forest. -/

/-- Flat tree node as served by `GET /tree/space/{space_id}`
(`pageService.ts`). -/
structure TreeNodeT where
  id : String
  parent_id : Option String
  page_id : Option String
  position : Int
  title : Option String
  is_archived : Bool
  has_children : Bool
deriving Repr, DecidableEq

/-- A node the first pass keeps: truthy `page_id` (sentinels are skipped). -/
def keptNode (n : TreeNodeT) : Bool :=
  strTruthy n.page_id

/-- Whether the node map holds an entry for id `i`. -/
def keptId (nodes : List TreeNodeT) (i : String) : Bool :=
  nodes.any (fun m => keptNode m && m.id == i)

/-- The `parent_id` field under JS truthiness: `none` when absent or empty.
-/
def truthyParent (t : TreeNodeT) : Option String :=
  match t.parent_id with
  | some q => if q == "" then none else some q
  | none => none

/-- The children pushed under parent id `p`, in input order: kept nodes with
truthy `parent_id` equal to `p`. -/
def childBucket (nodes : List TreeNodeT) (p : String) : List TreeNodeT :=
  nodes.filter (fun n => keptNode n && truthyParent n == some p)

/-- The nodes pushed into `rootNodes`, in input order: kept nodes whose
`parent_id` is falsy or not in the node map. -/
def rootBucket (nodes : List TreeNodeT) : List TreeNodeT :=
  nodes.filter (fun n =>
    keptNode n
      && (match truthyParent n with
          | some q => !(keptId nodes q)
          | none => true))

/-- Parent references are acyclic, witnessed by a rank function: every kept
node with a kept truthy parent ranks strictly above that parent. -/
def rankOkB (nodes : List TreeNodeT) (rk : String → Nat) : Bool :=
  nodes.all (fun n =>
    !(keptNode n)
      || (match truthyParent n with
          | some q => !(keptId nodes q) || decide (rk q < rk n.id)
          | none => true))

/-- A displayed tree node: the original flat node (the JS `data` field) plus
children.  The derived display attributes (key, label, icon, leaf) are
functions of `data` and play no role in the claims. -/
inductive DisplayNode : Type where
  | mk (data : TreeNodeT) (children : List DisplayNode)
deriving Repr

/-- The flat node a display node was built from. -/
def DisplayNode.data : DisplayNode → TreeNodeT
  | .mk d _ => d

/-- The children of a display node. -/
def DisplayNode.children : DisplayNode → List DisplayNode
  | .mk _ cs => cs

/-- Expand a node's bucket into a display subtree, bounded by fuel (the JS
object graph needs no fuel, but can only be materialised into a forest when
the parent references are acyclic — the hypothesis under which the claims are
settled). -/
def materialize (nodes : List TreeNodeT) : Nat → TreeNodeT → DisplayNode
  | 0, n => .mk n []
  | f + 1, n => .mk n ((childBucket nodes n.id).map (materialize nodes f))

/-- Denotation of `buildTreeStructure`: the forest reachable from the root
bucket. -/
def buildTreeStructure (nodes : List TreeNodeT) : List DisplayNode :=
  (rootBucket nodes).map (materialize nodes nodes.length)

mutual

/-- Number of display nodes in a subtree whose `data.id` is `i`. -/
def occNode : DisplayNode → String → Nat
  | .mk d cs, i => (if d.id == i then 1 else 0) + occList cs i

/-- Number of display nodes in a forest whose `data.id` is `i`. -/
def occList : List DisplayNode → String → Nat
  | [], _ => 0
  | c :: cs, i => occNode c i + occList cs i

end

mutual

/-- All display nodes of a subtree (the node itself included). -/
def allDisplayNode : DisplayNode → List DisplayNode
  | .mk d cs => .mk d cs :: allDisplayList cs

/-- All display nodes of a forest. -/
def allDisplayList : List DisplayNode → List DisplayNode
  | [] => []
  | c :: cs => allDisplayNode c ++ allDisplayList cs

end

/-- Whether some display node with `data.id = p` has a child with
`data.id = c`. -/
def isChildSomewhere (forest : List DisplayNode) (p c : String) : Bool :=
  (allDisplayList forest).any (fun d =>
    d.data.id == p && d.children.any (fun e => e.data.id == c))

/-- Whether a node with `data.id = c` sits at the top level of the forest. -/
def appearsAtRoot (forest : List DisplayNode) (c : String) : Bool :=
  forest.any (fun d => d.data.id == c)

/-- What claim C8 as stated demands of one kept input node: it appears
exactly once, as a child of the node whose id equals its `parent_id` whenever
*some input node* has that id, and otherwise at root level. -/
def claimC8ok (nodes : List TreeNodeT) (n : TreeNodeT) : Bool :=
  (occList (buildTreeStructure nodes) n.id == 1)
    && (match n.parent_id with
        | some q =>
            if nodes.any (fun m => m.id == q) then
              isChildSomewhere (buildTreeStructure nodes) q n.id
            else
              appearsAtRoot (buildTreeStructure nodes) n.id
        | none => appearsAtRoot (buildTreeStructure nodes) n.id)

/-- Claim C8 as stated, over a whole input list. -/
def claimC8Stated (nodes : List TreeNodeT) : Prop :=
  ∀ n ∈ nodes, keptNode n = true → claimC8ok nodes n = true

/-! ## Route-parameter page ids (claim C10) -/

/-- Case-insensitive hex digit, as matched by `[0-9a-f]` under the `/i`
flag. -/
def isHexDigit (c : Char) : Bool :=
  (Char.isDigit c) || ('a' ≤ c && c ≤ 'f') || ('A' ≤ c && c ≤ 'F')

/-- Whether a list of 36 characters has the UUID shape
`xxxxxxxx-xxxx-xxxx-xxxx-xxxxxxxxxxxx`. -/
def uuidShape (cs : List Char) : Bool :=
  cs.length == 36
    && (cs.zip (List.range 36)).all (fun pc =>
        if pc.2 == 8 || pc.2 == 13 || pc.2 == 18 || pc.2 == 23 then
          pc.1 == '-'
        else isHexDigit pc.1)

/-- The leading-UUID match of `PageView.vue`'s `pageId` regex: the first 36
characters when they form a UUID. -/
def uuidHead (s : String) : Option String :=
  let cs := s.toList.take 36
  if uuidShape cs then some (String.mk cs) else none

/-- JavaScript `s.split('-')[0]`. -/
def headBeforeDash (s : String) : String :=
  String.mk (s.toList.takeWhile (fun c => !(c == '-')))

/-- Embedding of `pageId` from `PageView.vue` (lines 387–396): the leading
36-character UUID when the route parameter starts with one, else the substring
before the first `-`. -/
def pageViewPageId (pageIdSlug : String) : String :=
  match uuidHead pageIdSlug with
  | some u => u
  | none => headBeforeDash pageIdSlug

/-- Embedding of `currentPageId` from `PageTree.vue` (lines 135–139): always
the substring before the first `-`. -/
def pageTreeCurrentPageId (pageIdSlug : String) : String :=
  headBeforeDash pageIdSlug

/-! ## Concrete example inputs used by the claim theorems -/

/-- A document with one paragraph containing the text `"a"`. -/
def c4Tree : TipNode :=
  .mk (some "doc") none none []
    (some [.mk (some "paragraph") none none []
      (some [.mk none (some "a") none [] none])])

/-- A document whose only child is a heading nested inside a heading. -/
def c9Bad : TipNode :=
  .mk (some "doc") none none []
    (some [.mk (some "heading") none (some 1) []
      (some [.mk (some "heading") none (some 2) []
        (some [.mk none (some "b") none [] none])])])

/-- A well-formed document: heading, paragraph, heading. -/
def c9Good : TipNode :=
  .mk (some "doc") none none []
    (some [.mk (some "heading") none (some 1) []
        (some [.mk none (some "a") none [] none]),
      .mk (some "paragraph") none none []
        (some [.mk none (some "x") none [] none]),
      .mk (some "heading") none (some 2) []
        (some [.mk none (some "b") none [] none])])

/-- A root sentinel row (null `page_id`). -/
def c8SentinelRow : TreeNodeT :=
  ⟨"s", none, none, 0, none, false, true⟩

/-- A page row whose `parent_id` points at the sentinel. -/
def c8ChildRow : TreeNodeT :=
  ⟨"a", some "s", some "pa", 1024, some "A", false, false⟩

/-- The C8 counterexample input list. -/
def c8CexNodes : List TreeNodeT :=
  [c8SentinelRow, c8ChildRow]

/-- A two-node well-formed input: one root page and one child page. -/
def c8RootRow : TreeNodeT :=
  ⟨"r", none, some "pr", 1024, some "R", false, true⟩

/-- The child of `c8RootRow`. -/
def c8LeafRow : TreeNodeT :=
  ⟨"c", some "r", some "pc", 1024, some "C", false, false⟩

/-- The C8 witness input list. -/
def c8GoodNodes : List TreeNodeT :=
  [c8RootRow, c8LeafRow]

/-! # Theorems -/

/-! ## Claim C7: traversal recursion depth -/

theorem tipDepth_nestedDoc (n : Nat) : tipDepth (nestedDoc n) = n + 1 := by
  induction n with
  | zero => rfl
  | succ k ih =>
      simp [nestedDoc, tipDepth, tipDepthList, ih]
      omega

/-- Claim C7 (evidence for the code bug): the content-tree traversals
(`extractFromNode`, `renderNode`, the outline `traverse`) recurse once per
nesting level with no explicit stack and no depth bound, so their recursion
depth is unbounded over inputs: for every bound there is a document tree
(`nestedDoc b`) whose traversal exceeds it. -/
theorem c7_traversal_depth_unbounded (b : Nat) : b < tipDepth (nestedDoc b) := by
  rw [tipDepth_nestedDoc]
  omega

/-! ## Claim C10: route-parameter page ids -/

/-- Claim C10 (evidence for the code bug): on the route parameter
`"12345678-1234-1234-1234-123456789abc-setup"` PageView's `pageId` yields the
full 36-character UUID while PageTree's `currentPageId` yields only
`"12345678"`, so the two components disagree on the current page id. -/
theorem c10_page_id_mismatch :
    pageViewPageId "12345678-1234-1234-1234-123456789abc-setup"
        = "12345678-1234-1234-1234-123456789abc"
      ∧ pageTreeCurrentPageId "12345678-1234-1234-1234-123456789abc-setup"
        = "12345678"
      ∧ pageViewPageId "12345678-1234-1234-1234-123456789abc-setup"
        ≠ pageTreeCurrentPageId "12345678-1234-1234-1234-123456789abc-setup" := by
  refine ⟨?_, ?_, ?_⟩ <;> decide

/-! ## Claim C2: drag-drop positions vs the allocation rule -/

/-- Claim C2 counterexample: for the claim's own scenario — a node dropped at
root index 1 between siblings at positions 1024 and 2048 — the handler submits
2048, not the midpoint 1536, so the submitted position violates the
midpoint rule. -/
theorem c2_counterexample :
    onNodeDropPosition none 1 = 2048
      ∧ allocatePosition (.between 1024 2048) = 1536
      ∧ onNodeDropPosition none 1 ≠ allocatePosition (.between 1024 2048) := by
  refine ⟨?_, ?_, ?_⟩ <;> decide

/-- Claim C2 (amended): the spec-modelled store allocates `floor((prev+next)/2)`
between siblings (1024, 2048 ↦ 1536), but the drop handler submits
`(dropIndex+1)*1024` at root and a constant 1024 onto a target; those submitted
values agree with the allocation rule only in the empty-parent case (first
child of a target) and in the append case when the earlier root siblings sit
at the canonical positions `GAP, 2*GAP, …, n*GAP`. -/
theorem c2_drop_position_amended (target : String) (n : Nat) :
    onNodeDropPosition (some target) n = allocatePosition .empty
      ∧ onNodeDropPosition none n = allocatePosition (.atEnd (GAP * n))
      ∧ allocatePosition (.between 1024 2048) = 1536 := by
  refine ⟨rfl, ?_, by decide⟩
  simp [onNodeDropPosition, allocatePosition, GAP]
  ring

/-! ## Claim C6: circular moves and rollback -/

/-- Claim C6: moving a node under one of its own descendants (the moved node
appears in the target parent's ancestor chain) fails with `CircularReference`
and leaves the stored rows unchanged; and whenever the move request fails, the
drop handler displays exactly the pre-move tree snapshot again. -/
theorem c6_circular_move_rejected (rows : List TreeRow) (n d : String) (p : Int)
    (h : (ancestorChain rows rows.length (some d)).contains n = true) :
    moveNode rows n (some d) p = (rows, some .CircularReference)
      ∧ ∀ (α : Type) (old opt rel : α),
          onNodeDropOutcome old opt rel (moveNode rows n (some d) p).2 = old := by
  have hm : moveNode rows n (some d) p = (rows, some .CircularReference) := by
    unfold moveNode
    rw [if_pos h]
  exact ⟨hm, fun α old opt rel => by rw [hm]; rfl⟩

/-- Witness for C6 at a concrete two-row tree: `b` is a child of `a`, and
moving `a` under `b` is rejected with the rows unchanged. -/
theorem c6_witness :
    moveNode [⟨"a", none, 1024⟩, ⟨"b", some "a", 1024⟩] "a" (some "b") 512
        = ([⟨"a", none, 1024⟩, ⟨"b", some "a", 1024⟩], some .CircularReference)
      ∧ onNodeDropOutcome [1] [2] [3]
          (moveNode [⟨"a", none, 1024⟩, ⟨"b", some "a", 1024⟩] "a"
            (some "b") 512).2 = [1] := by
  have h := c6_circular_move_rejected
    [⟨"a", none, 1024⟩, ⟨"b", some "a", 1024⟩] "a" "b" 512 (by decide)
  exact ⟨h.1, h.2 (List Nat) [1] [2] [3]⟩

/-! ## Claim C1: stale-token draft writes -/

/-- Claim C1: a draft write whose supplied token differs from the stored token
is rejected with `Conflict`, the stored draft is not mutated, the response
carries the authoritative current token; the autosave client hands exactly
that token to its conflict callback and records nothing as saved
(`lastSavedContent`, `lastSaved` unchanged, `hasUnsavedChanges` still true).
-/
theorem c1_stale_token_conflict (server : DraftStore) (client : AutosaveState)
    (c : String) (now t : Nat)
    (hs : suppliedToken client = some t) (hne : t ≠ server.token)
    (hu : client.hasUnsavedChanges = true) :
    writeDraft server c (suppliedToken client)
        = (server, .conflict server.token)
      ∧ (autosaveStep server client c now).1 = server
      ∧ (autosaveStep server client c now).2.2
          = [.conflictCb server.token]
      ∧ (autosaveStep server client c now).2.1.lastSavedContent
          = client.lastSavedContent
      ∧ (autosaveStep server client c now).2.1.lastSaved = client.lastSaved
      ∧ (autosaveStep server client c now).2.1.hasUnsavedChanges = true := by
  have hw : writeDraft server c (suppliedToken client)
      = (server, .conflict server.token) := by
    simp [writeDraft, hs, hne]
  refine ⟨hw, ?_, ?_, ?_, ?_, ?_⟩ <;>
    simp [autosaveStep, hw, applySaveResult, hu]

/-- Witness for C1 at concrete states: stored token 5, supplied token 3. -/
theorem c1_witness :
    writeDraft ⟨"srv", 5⟩ "new" (suppliedToken ⟨some 3, some "x", some 0, true, none⟩)
        = (⟨"srv", 5⟩, .conflict 5)
      ∧ (autosaveStep ⟨"srv", 5⟩ ⟨some 3, some "x", some 0, true, none⟩
          "new" 7).2.2 = [.conflictCb 5] := by
  have h := c1_stale_token_conflict ⟨"srv", 5⟩
    ⟨some 3, some "x", some 0, true, none⟩ "new" 7 3 rfl (by decide) rfl
  exact ⟨h.1, h.2.2.1⟩

/-! ## Claim C3: fresh tokens on successful writes -/

/-- Claim C3: a successful draft write issues a token different from the
stored one and returns it; the client replaces its stored etag with the
returned `draft_etag`, so the next autosave supplies the freshly issued
token. -/
theorem c3_fresh_token_on_success (server : DraftStore) (client : AutosaveState)
    (c : String) (now : Nat)
    (hs : suppliedToken client = some server.token) :
    writeDraft server c (suppliedToken client)
        = (⟨c, server.token + 1⟩, .ok (server.token + 1))
      ∧ server.token + 1 ≠ server.token
      ∧ (autosaveStep server client c now).1.token = server.token + 1
      ∧ (autosaveStep server client c now).2.1.etag = some (server.token + 1)
      ∧ suppliedToken (autosaveStep server client c now).2.1
          = some ((autosaveStep server client c now).1.token) := by
  have hw : writeDraft server c (suppliedToken client)
      = (⟨c, server.token + 1⟩, .ok (server.token + 1)) := by
    simp [writeDraft, hs]
  have hw2 : writeDraft server c client.etag
      = (⟨c, server.token + 1⟩, .ok (server.token + 1)) := by
    simpa [suppliedToken] using hw
  refine ⟨hw, by omega, ?_, ?_, ?_⟩ <;>
    simp [autosaveStep, hw2, applySaveResult, suppliedToken]

/-! ## Claim C5: publish pipeline -/

theorem foldr_max_range' (s n : Nat) :
    List.foldr max 0 (List.range' (s + 1) n) = if n = 0 then 0 else s + n := by
  induction n generalizing s with
  | zero => simp
  | succ k ih =>
      rw [List.range'_succ (s + 1) k 1]
      simp only [List.foldr_cons]
      rw [ih (s + 1)]
      rcases k with _ | k
      · simp
      · have h1 : (k + 1 : Nat) ≠ 0 := by omega
        have h2 : (k + 1 + 1 : Nat) ≠ 0 := by omega
        rw [if_neg h1, if_neg h2, Nat.max_eq_right (by omega)]
        omega

theorem maxVersionNumber_eq (vs : List PageVersionRow) (m : Nat)
    (h : vs.map PageVersionRow.number = List.range' 1 m) :
    maxVersionNumber vs = m := by
  have h1 : maxVersionNumber vs
      = (vs.map PageVersionRow.number).foldr max 0 := by
    rw [List.foldr_map]
    rfl
  rw [h1, h]
  have h2 := foldr_max_range' 0 m
  simp only [Nat.zero_add] at h2
  rw [h2]
  rcases m with _ | m <;> simp

theorem numberFrom_map_number (k : Nat) (l : List String) :
    (numberFrom k l).map PageVersionRow.number = List.range' k l.length := by
  induction l generalizing k with
  | nil => rfl
  | cons c cs ih => simp [numberFrom, List.range'_succ, ih]

theorem runOps_versions (ops : List DraftOp) (d0 : String)
    (vs : List PageVersionRow) (m : Nat)
    (h : vs.map PageVersionRow.number = List.range' 1 m) :
    (runOps ⟨d0, vs⟩ ops).versions
      = vs ++ numberFrom (m + 1) (publishSnapshots d0 ops) := by
  induction ops generalizing d0 vs m with
  | nil => simp [runOps, publishSnapshots, numberFrom]
  | cons op ops ih =>
      cases op with
      | write c =>
          simpa [runOps, publishSnapshots] using ih c vs m h
      | publishOp =>
          have hmax := maxVersionNumber_eq vs m h
          have h2 : (vs ++ [PageVersionRow.mk (m + 1) d0]).map
                PageVersionRow.number
              = List.range' 1 (m + 1) := by
            rw [List.range'_concat]
            simp [h, Nat.add_comm]
          have h3 := ih d0 (vs ++ [PageVersionRow.mk (m + 1) d0]) (m + 1) h2
          simp only [runOps, publish, hmax, publishSnapshots]
          rw [h3]
          simp [numberFrom]

/-- Claim C5: publishing N times (after arbitrary interleaved draft writes)
yields version numbers 1..N, contiguous and increasing, each version's
content being the draft at the moment of its publish; and the client's
publish flow (`confirmPublish`) performs a forced draft save of the editor
content before the publish call, so the published version carries the
editor's current draft. -/
theorem c5_publish_versions (ops : List DraftOp) (d0 : String)
    (s : ServerPage) (c : String) :
    ((runOps ⟨d0, []⟩ ops).versions
        = numberFrom 1 (publishSnapshots d0 ops)
      ∧ (runOps ⟨d0, []⟩ ops).versions.map PageVersionRow.number
        = List.range' 1 (publishSnapshots d0 ops).length)
      ∧ ((confirmPublishModel s c (some s.draft.token)).2.content = c
        ∧ (confirmPublishModel s c (some s.draft.token)).2.number
            = maxVersionNumber s.versions + 1
        ∧ (confirmPublishModel s c (some s.draft.token)).1.versions
            = s.versions ++ [(confirmPublishModel s c (some s.draft.token)).2]) := by
  have h0 : ([] : List PageVersionRow).map PageVersionRow.number
      = List.range' 1 0 := rfl
  have hrun := runOps_versions ops d0 [] 0 h0
  constructor
  · constructor
    · simpa using hrun
    · rw [show (runOps ⟨d0, []⟩ ops).versions
          = numberFrom 1 (publishSnapshots d0 ops) by simpa using hrun]
      exact numberFrom_map_number 1 (publishSnapshots d0 ops)
  · refine ⟨?_, ?_, ?_⟩ <;>
      simp [confirmPublishModel, writeDraft, publishPage]

/-- Witness for C3 at concrete states: stored and supplied token 5. -/
theorem c3_witness :
    writeDraft ⟨"srv", 5⟩ "new" (suppliedToken ⟨some 5, some "x", some 0, true, none⟩)
        = (⟨"new", 6⟩, .ok 6)
      ∧ (autosaveStep ⟨"srv", 5⟩ ⟨some 5, some "x", some 0, true, none⟩
          "new" 7).2.1.etag = some 6 := by
  have h := c3_fresh_token_on_success ⟨"srv", 5⟩
    ⟨some 5, some "x", some 0, true, none⟩ "new" 7 rfl
  exact ⟨h.1, h.2.2.2.1⟩

/-! ## Claim C4: plain-text projection -/

mutual

theorem extractFromNode_eq_spec : ∀ (n : TipNode), textLeaves n = true →
    extractFromNode n ++ (if isBlockChild n then " " else "")
      = specPlainTextNode n
  | .mk ty tx lvl mks none, _ => by
      simp [extractFromNode, specPlainTextNode, isBlockChild, TipNode.ty,
        strOrEmpty]
  | .mk ty tx lvl mks (some cs), h => by
      rw [textLeaves] at h
      simp only [Bool.and_eq_true] at h
      obtain ⟨h1, h2⟩ := h
      by_cases ht : strTruthy tx = true
      · have hcs : cs = [] := by
          rcases cs with _ | ⟨c, cs⟩
          · rfl
          · simp [ht] at h1
        subst hcs
        simp [extractFromNode, specPlainTextNode, extractFromChildren,
          specPlainTextList, isBlockChild, TipNode.ty, strOrEmpty, ht]
      · have ht2 : strTruthy tx = false := by
          simpa using ht
        have hrec := extractFromChildren_eq_spec cs h2
        simp [extractFromNode, specPlainTextNode, isBlockChild, TipNode.ty,
          strOrEmpty, ht2, hrec, String.append_assoc]

theorem extractFromChildren_eq_spec : ∀ (l : List TipNode),
    textLeavesList l = true → extractFromChildren l = specPlainTextList l
  | [], _ => rfl
  | c :: cs, h => by
      rw [textLeavesList] at h
      simp only [Bool.and_eq_true] at h
      have hc := extractFromNode_eq_spec c h.1
      have hcs := extractFromChildren_eq_spec cs h.2
      rw [extractFromChildren, specPlainTextList, ← hc, ← hcs,
        String.append_assoc]

end

/-- Claim C4 counterexample: on a document with one paragraph containing
`"a"`, the code computes `"a"` while the claim's described value (leaf text
concatenated, a separator after each block node) is `"a "` — the code
additionally trims the result, so the claimed equality fails as stated. -/
theorem c4_counterexample :
    extractPlainText c4Tree = "a"
      ∧ specPlainTextNode c4Tree = "a "
      ∧ extractPlainText c4Tree ≠ specPlainTextNode c4Tree := by
  refine ⟨?_, ?_, ?_⟩ <;> decide

/-- Claim C4 (amended): for a doc-rooted tree with a content array whose text
occurs only at leaf nodes, the plain-text projection computed on a draft
write equals the *trim* of the concatenation of leaf-node text in document
order with a separator after each block-level (paragraph/heading) node. -/
theorem c4_plain_text_amended (j : TipNode) (cs : List TipNode)
    (hc : j.content = some cs) (hd : j.ty = some "doc")
    (hl : textLeaves j = true) :
    extractPlainText j = jsTrim (specPlainTextNode j) := by
  have hb : isBlockChild j = false := by
    simp [isBlockChild, hd, isBlockTy]
  have he := extractFromNode_eq_spec j hl
  rw [hb] at he
  simp at he
  obtain ⟨ty, tx, lvl, mks, co⟩ := j
  simp only [TipNode.content] at hc
  subst hc
  show jsTrim (extractFromNode (TipNode.mk ty tx lvl mks (some cs)))
      = jsTrim (specPlainTextNode (TipNode.mk ty tx lvl mks (some cs)))
  rw [he]

/-- Witness for the amended C4 at the concrete one-paragraph document. -/
theorem c4_witness :
    textLeaves c4Tree = true
      ∧ extractPlainText c4Tree = jsTrim (specPlainTextNode c4Tree) :=
  ⟨by decide, c4_plain_text_amended c4Tree _ rfl rfl (by decide)⟩

/-! ## Claim C9: table-of-contents anchors vs rendered heading ids -/

theorem renderSwitch_next_of_not (ty : Option String) (lvl : Option Nat)
    (c : RenderOut) (h : headingTy ty = false) :
    (renderSwitch ty lvl c).next = c.next := by
  simp [renderSwitch, h]

theorem renderSwitch_anchors_empty (ty : Option String) (lvl : Option Nat)
    (c : RenderOut) (h : headingTy ty = false) (hc : c.anchors = []) :
    (renderSwitch ty lvl c).anchors = [] := by
  simp [renderSwitch, h, hc]

theorem renderSwitch_pass (ty : Option String) (lvl : Option Nat)
    (c : RenderOut) (h : headingTy ty = false) (hv : voidTy ty = false) :
    (renderSwitch ty lvl c).anchors = c.anchors
      ∧ (renderSwitch ty lvl c).next = c.next := by
  simp [renderSwitch, h, hv]

theorem renderSwitch_heading_anchors (lvl : Option Nat) (c : RenderOut) :
    (renderSwitch (some "heading") lvl c).anchors
      = ("heading-" ++ toString c.next) :: c.anchors := rfl

theorem renderSwitch_heading_next (lvl : Option Nat) (c : RenderOut) :
    (renderSwitch (some "heading") lvl c).next = c.next + 1 := rfl

mutual

theorem traverseHeadings_hfree : ∀ (n : TipNode), headingFree n = true →
    ∀ i, traverseHeadings n i = ([], i)
  | .mk ty tx lvl mks none, h, i => by
      rw [headingFree] at h
      simp only [headingTy, Bool.not_eq_true'] at h
      simp [traverseHeadings, h]
  | .mk ty tx lvl mks (some cs), h, i => by
      rw [headingFree] at h
      simp only [headingTy, Bool.and_eq_true, Bool.not_eq_true'] at h
      have hl := traverseHeadingsList_hfree cs h.2 i
      simp [traverseHeadings, h.1, hl]

theorem traverseHeadingsList_hfree : ∀ (l : List TipNode),
    headingFreeList l = true → ∀ i, traverseHeadingsList l i = ([], i)
  | [], _, _ => rfl
  | c :: cs, h, i => by
      rw [headingFreeList] at h
      simp only [Bool.and_eq_true] at h
      have hc := traverseHeadings_hfree c h.1 i
      have hcs := traverseHeadingsList_hfree cs h.2 i
      simp [traverseHeadingsList, hc, hcs]

end

mutual

theorem renderNode_hfree : ∀ (n : TipNode), headingFree n = true → ∀ i,
    (renderNode n i).anchors = [] ∧ (renderNode n i).next = i
  | .mk ty tx lvl mks none, h, i => by
      rw [headingFree] at h
      simp only [Bool.not_eq_true'] at h
      rw [renderNode]
      by_cases ht : strTruthy tx = true
      · simp [ht]
      · simp only [ht, if_false, Bool.false_eq_true]
        exact ⟨renderSwitch_anchors_empty ty lvl _ h rfl,
          renderSwitch_next_of_not ty lvl _ h⟩
  | .mk ty tx lvl mks (some cs), h, i => by
      rw [headingFree] at h
      simp only [Bool.and_eq_true, Bool.not_eq_true'] at h
      have hcs := renderChildren_hfree cs h.2 i
      rw [renderNode]
      by_cases ht : strTruthy tx = true
      · simp [ht]
      · simp only [ht, if_false, Bool.false_eq_true]
        refine ⟨renderSwitch_anchors_empty ty lvl _ h.1 hcs.1, ?_⟩
        rw [renderSwitch_next_of_not ty lvl _ h.1, hcs.2]

theorem renderChildren_hfree : ∀ (l : List TipNode),
    headingFreeList l = true → ∀ i,
    (renderChildren l i).anchors = [] ∧ (renderChildren l i).next = i
  | [], _, _ => ⟨rfl, rfl⟩
  | c :: cs, h, i => by
      rw [headingFreeList] at h
      simp only [Bool.and_eq_true] at h
      have hc := renderNode_hfree c h.1 i
      have hcs := renderChildren_hfree cs h.2 (renderNode c i).next
      refine ⟨?_, ?_⟩
      · show (renderNode c i).anchors
            ++ (renderChildren cs (renderNode c i).next).anchors = []
        simp [hc.1, hcs.1]
      · show (renderChildren cs (renderNode c i).next).next = i
        rw [hcs.2, hc.2]

end

mutual

theorem tame_toc_render : ∀ (n : TipNode), tameTree n = true → ∀ i,
    (traverseHeadings n i).1.map (fun x => x.id) = (renderNode n i).anchors
      ∧ (traverseHeadings n i).2 = (renderNode n i).next
  | .mk ty tx lvl mks none, h, i => by
      rw [tameTree] at h
      by_cases hh : (ty == some "heading") = true
      · have hty : ty = some "heading" := by simpa using hh
        subst hty
        have htx : strTruthy tx = false := by
          simpa [headingTy] using h
        constructor
        · simp [traverseHeadings, renderNode, htx,
            renderSwitch_heading_anchors]
        · simp [traverseHeadings, renderNode, htx,
            renderSwitch_heading_next]
      · have h1 : headingTy ty = false := by
          simpa [headingTy] using hh
        by_cases ht : strTruthy tx = true
        · constructor <;> simp [traverseHeadings, renderNode, hh, ht]
        · have ha := renderSwitch_anchors_empty ty lvl ⟨"", [], i⟩ h1 rfl
          have hn := renderSwitch_next_of_not ty lvl ⟨"", [], i⟩ h1
          constructor <;>
            simp [traverseHeadings, renderNode, hh, ht, ha, hn]
  | .mk ty tx lvl mks (some cs), h, i => by
      rw [tameTree] at h
      simp only [Bool.and_eq_true] at h
      obtain ⟨hcond, htame⟩ := h
      by_cases hh : (ty == some "heading") = true
      · have hty : ty = some "heading" := by simpa using hh
        subst hty
        rw [if_pos (by simp [headingTy] : headingTy (some "heading") = true)]
          at hcond
        simp only [Bool.and_eq_true, Bool.not_eq_true'] at hcond
        obtain ⟨htx, hfree⟩ := hcond
        have htoc := traverseHeadingsList_hfree cs hfree (i + 1)
        have hrc := renderChildren_hfree cs hfree i
        constructor
        · simp [traverseHeadings, renderNode, htx, htoc,
            renderSwitch_heading_anchors, hrc.1, hrc.2]
        · simp [traverseHeadings, renderNode, htx, htoc,
            renderSwitch_heading_next, hrc.2]
      · have h1 : headingTy ty = false := by
          simpa [headingTy] using hh
        rw [if_neg (by simpa [headingTy] using hh : ¬headingTy ty = true)]
          at hcond
        by_cases hsv : (strTruthy tx || voidTy ty) = true
        · rw [if_pos hsv] at hcond
          have htoc := traverseHeadingsList_hfree cs hcond i
          have hrc := renderChildren_hfree cs hcond i
          by_cases ht : strTruthy tx = true
          · constructor <;>
              simp [traverseHeadings, renderNode, hh, ht, htoc]
          · have ha := renderSwitch_anchors_empty ty lvl
              (renderChildren cs i) h1 hrc.1
            have hn := renderSwitch_next_of_not ty lvl
              (renderChildren cs i) h1
            constructor <;>
              simp [traverseHeadings, renderNode, hh, ht, htoc, ha, hn,
                hrc.2]
        · rw [if_neg hsv] at hcond
          have hor := Bool.or_eq_false_iff.mp (by simpa using hsv)
          have hrec := tameList_toc_render cs htame i
          have hp := renderSwitch_pass ty lvl (renderChildren cs i) h1 hor.2
          constructor
          · simp only [traverseHeadings, renderNode, hh, hor.1, if_false,
              Bool.false_eq_true, hp.1]
            simpa using hrec.1
          · simp only [traverseHeadings, renderNode, hh, hor.1, if_false,
              Bool.false_eq_true, hp.2]
            simpa using hrec.2

theorem tameList_toc_render : ∀ (l : List TipNode), tameTreeList l = true →
    ∀ i,
    (traverseHeadingsList l i).1.map (fun x => x.id)
        = (renderChildren l i).anchors
      ∧ (traverseHeadingsList l i).2 = (renderChildren l i).next
  | [], _, _ => ⟨rfl, rfl⟩
  | c :: cs, h, i => by
      rw [tameTreeList] at h
      simp only [Bool.and_eq_true] at h
      have hc := tame_toc_render c h.1 i
      have hcs := tameList_toc_render cs h.2 (renderNode c i).next
      refine ⟨?_, ?_⟩
      · show ((traverseHeadings c i).1
              ++ (traverseHeadingsList cs (traverseHeadings c i).2).1).map
                (fun x => x.id)
            = (renderNode c i).anchors
              ++ (renderChildren cs (renderNode c i).next).anchors
        rw [List.map_append, hc.1, hc.2, hcs.1]
      · show (traverseHeadingsList cs (traverseHeadings c i).2).2
            = (renderChildren cs (renderNode c i).next).next
        rw [hc.2, hcs.2]

end

/-- Claim C9 counterexample: on a document whose only child is a heading
nested inside a heading, the TOC assigns ids in pre-order
(`heading-0, heading-1`) while the renderer assigns them post-order, so the
rendered document-order id sequence is `heading-1, heading-0`: the sequences
differ. -/
theorem c9_counterexample :
    tocAnchors c9Bad = ["heading-0", "heading-1"]
      ∧ renderAnchors c9Bad = ["heading-1", "heading-0"]
      ∧ tocAnchors c9Bad ≠ renderAnchors c9Bad := by
  refine ⟨?_, ?_, ?_⟩ <;> decide

/-- Claim C9 (amended): for every content tree whose root carries a content
array and whose headings are well-formed blocks (no heading nested inside a
heading, no text-bearing or void-rendered node containing a heading, headings
without direct text — `tameTree`), the TOC anchor-id sequence equals the
document-order sequence of id attributes the renderer assigns to the rendered
heading elements, so every TOC entry targets an existing heading anchor. -/
theorem c9_toc_matches_render_amended (j : TipNode) (cs : List TipNode)
    (hc : j.content = some cs) (ht : tameTree j = true) :
    tocAnchors j = renderAnchors j := by
  have h := tame_toc_render j ht 0
  obtain ⟨ty, tx, lvl, mks, co⟩ := j
  simp only [TipNode.content] at hc
  subst hc
  exact h.1

/-- Witness for the amended C9 at a well-formed document (heading, paragraph,
heading). -/
theorem c9_witness :
    tameTree c9Good = true
      ∧ tocAnchors c9Good = renderAnchors c9Good
      ∧ tocAnchors c9Good = ["heading-0", "heading-1"] :=
  ⟨by decide, c9_toc_matches_render_amended c9Good _ rfl (by decide),
    by decide⟩

/-! ## Claim C8: buildTreeStructure -/

/-- Claim C8 counterexample: in an input holding the root sentinel `s`
(`page_id` null) and a page node `a` with `parent_id = "s"`, the parent *is*
present in the input, yet `a` is placed at root level (the sentinel is not in
the node map), so the claim's placement clause fails as stated. -/
theorem c8_counterexample :
    c8ChildRow ∈ c8CexNodes
      ∧ keptNode c8ChildRow = true
      ∧ c8ChildRow.parent_id = some "s"
      ∧ c8CexNodes.any (fun m => m.id == "s") = true
      ∧ appearsAtRoot (buildTreeStructure c8CexNodes) "a" = true
      ∧ isChildSomewhere (buildTreeStructure c8CexNodes) "s" "a" = false
      ∧ ¬ claimC8Stated c8CexNodes := by
  refine ⟨by decide, by decide, rfl, by decide, by decide, by decide, ?_⟩
  unfold claimC8Stated
  decide

theorem materialize_data (nodes : List TreeNodeT) (f : Nat) (n : TreeNodeT) :
    (materialize nodes f n).data = n := by
  cases f <;> rfl

theorem materialize_succ (nodes : List TreeNodeT) (f : Nat) (n : TreeNodeT) :
    materialize nodes (f + 1) n
      = .mk n ((childBucket nodes n.id).map (materialize nodes f)) := rfl

theorem allDisplayNode_mk (d : TreeNodeT) (cs : List DisplayNode) :
    allDisplayNode (.mk d cs) = .mk d cs :: allDisplayList cs := rfl

theorem mem_allDisplayList_of_map {l : List TreeNodeT}
    {g : TreeNodeT → DisplayNode} {d : DisplayNode} :
    d ∈ allDisplayList (l.map g) ↔ ∃ c ∈ l, d ∈ allDisplayNode (g c) := by
  induction l with
  | nil => simp [allDisplayList]
  | cons x xs ih => simp [allDisplayList, ih]

theorem keptId_of_mem {nodes : List TreeNodeT} {n : TreeNodeT}
    (hm : n ∈ nodes) (hk : keptNode n = true) : keptId nodes n.id = true := by
  rw [keptId, List.any_eq_true]
  exact ⟨n, hm, by simp [hk]⟩

theorem exists_of_keptId {nodes : List TreeNodeT} {q : String}
    (h : keptId nodes q = true) :
    ∃ p ∈ nodes, keptNode p = true ∧ p.id = q := by
  rw [keptId, List.any_eq_true] at h
  obtain ⟨p, hp, hb⟩ := h
  rw [Bool.and_eq_true] at hb
  exact ⟨p, hp, hb.1, by simpa using hb.2⟩

theorem mem_childBucket {nodes : List TreeNodeT} {p : String} {t : TreeNodeT} :
    t ∈ childBucket nodes p
      ↔ t ∈ nodes ∧ keptNode t = true ∧ truthyParent t = some p := by
  simp [childBucket, List.mem_filter, and_assoc]

theorem mem_rootBucket {nodes : List TreeNodeT} {t : TreeNodeT} :
    t ∈ rootBucket nodes
      ↔ t ∈ nodes ∧ keptNode t = true
          ∧ (∀ q, truthyParent t = some q → keptId nodes q = false) := by
  rw [rootBucket, List.mem_filter]
  constructor
  · rintro ⟨hm, hb⟩
    rw [Bool.and_eq_true] at hb
    refine ⟨hm, hb.1, ?_⟩
    intro q hq
    have hb2 := hb.2
    rw [hq] at hb2
    simpa using hb2
  · rintro ⟨hm, hk, hq⟩
    refine ⟨hm, ?_⟩
    rw [Bool.and_eq_true]
    refine ⟨hk, ?_⟩
    cases htp : truthyParent t with
    | none => rfl
    | some q => simpa using hq q htp

theorem rankOkB_spec {nodes : List TreeNodeT} {rk : String → Nat}
    (h : rankOkB nodes rk = true) :
    ∀ c ∈ nodes, keptNode c = true → ∀ q, truthyParent c = some q →
      keptId nodes q = true → rk q < rk c.id := by
  intro c hc hk q hq hkq
  have hall := List.all_eq_true.mp h c hc
  rw [hk, hq] at hall
  simpa [hkq] using hall

theorem count_id_eq_one {nodes : List TreeNodeT}
    (hnd : (nodes.map TreeNodeT.id).Nodup) {l : List TreeNodeT}
    (hl : l.Sublist nodes) {t : TreeNodeT} (htn : t ∈ nodes) :
    (l.map TreeNodeT.id).count t.id = if t ∈ l then 1 else 0 := by
  have hln : (l.map TreeNodeT.id).Nodup :=
    hnd.sublist (hl.map TreeNodeT.id)
  by_cases hm : t ∈ l
  · rw [if_pos hm]
    have h1 : 0 < (l.map TreeNodeT.id).count t.id :=
      List.count_pos_iff.mpr (List.mem_map_of_mem TreeNodeT.id hm)
    have h2 := List.nodup_iff_count_le_one.mp hln t.id
    omega
  · rw [if_neg hm, List.count_eq_zero]
    intro hc
    obtain ⟨x, hx, hxe⟩ := List.mem_map.mp hc
    have hx2 : x = t := List.inj_on_of_nodup_map hnd (hl.subset hx) htn hxe
    exact hm (hx2 ▸ hx)

mutual

theorem occNode_eq_count : ∀ (d : DisplayNode) (i : String),
    occNode d i = ((allDisplayNode d).map (fun e => e.data.id)).count i
  | .mk dd cs, i => by
      have h := occList_eq_count cs i
      show (if dd.id == i then 1 else 0) + occList cs i = _
      simp [allDisplayNode_mk, List.count_cons, h, DisplayNode.data,
        Nat.add_comm]

theorem occList_eq_count : ∀ (F : List DisplayNode) (i : String),
    occList F i = ((allDisplayList F).map (fun e => e.data.id)).count i
  | [], _ => rfl
  | d :: F, i => by
      have h1 := occNode_eq_count d i
      have h2 := occList_eq_count F i
      show occNode d i + occList F i = _
      simp [allDisplayList, List.count_append, h1, h2]

end

theorem allDisplayList_cons (d : DisplayNode) (F : List DisplayNode) :
    allDisplayList (d :: F) = allDisplayNode d ++ allDisplayList F := rfl

mutual

theorem occNode_decomp : ∀ (nodes : List TreeNodeT) (d : DisplayNode)
    (i : String),
    (∀ e ∈ allDisplayNode d,
        e.children.map DisplayNode.data = childBucket nodes e.data.id) →
    occNode d i
      = (if d.data.id == i then 1 else 0)
        + ((allDisplayNode d).map
            (fun e =>
              ((childBucket nodes e.data.id).map TreeNodeT.id).count i)).sum
  | nodes, .mk dd cs, i, h => by
      have hself := h (.mk dd cs) (List.mem_cons_self _ _)
      have hsub : ∀ e ∈ allDisplayList cs,
          e.children.map DisplayNode.data = childBucket nodes e.data.id :=
        fun e he => h e (List.mem_cons_of_mem _ he)
      have hl := occList_decomp nodes cs i hsub
      have hmapid : cs.map (fun e => e.data.id)
          = (childBucket nodes dd.id).map TreeNodeT.id := by
        have h2 : (cs.map DisplayNode.data).map TreeNodeT.id
            = (childBucket nodes dd.id).map TreeNodeT.id := by
          rw [show cs.map DisplayNode.data = childBucket nodes dd.id from hself]
        rw [List.map_map] at h2
        exact h2
      show (if dd.id == i then 1 else 0) + occList cs i = _
      rw [hl, hmapid]
      simp only [allDisplayNode_mk, List.map_cons, List.sum_cons,
        DisplayNode.data]

theorem occList_decomp : ∀ (nodes : List TreeNodeT) (F : List DisplayNode)
    (i : String),
    (∀ e ∈ allDisplayList F,
        e.children.map DisplayNode.data = childBucket nodes e.data.id) →
    occList F i
      = ((F.map (fun d => d.data.id)).count i)
        + ((allDisplayList F).map
            (fun e =>
              ((childBucket nodes e.data.id).map TreeNodeT.id).count i)).sum
  | _, [], _, _ => rfl
  | nodes, d :: F, i, h => by
      have hd := occNode_decomp nodes d i
        (fun e he => h e (List.mem_append_left _ he))
      have hF := occList_decomp nodes F i
        (fun e he => h e (List.mem_append_right _ he))
      show occNode d i + occList F i = _
      rw [hd, hF]
      simp only [allDisplayList_cons, List.map_cons, List.count_cons,
        List.map_append, List.sum_append]
      ring

end

theorem materialize_correct (nodes : List TreeNodeT) (rk : String → Nat)
    (hrk : rankOkB nodes rk = true)
    (hbd : ∀ n ∈ nodes, rk n.id < nodes.length) :
    ∀ f, ∀ n ∈ nodes, keptNode n = true → nodes.length - rk n.id ≤ f →
      ∀ d ∈ allDisplayNode (materialize nodes f n),
        d.data ∈ nodes ∧ keptNode d.data = true
          ∧ d.children.map DisplayNode.data = childBucket nodes d.data.id := by
  intro f
  induction f with
  | zero =>
      intro n hn _ hf
      exact absurd hf (by have := hbd n hn; omega)
  | succ f ih =>
      intro n hn hk hf d hd
      rw [materialize_succ, allDisplayNode_mk] at hd
      rcases List.mem_cons.mp hd with hd | hd
      · subst hd
        refine ⟨hn, hk, ?_⟩
        show ((childBucket nodes n.id).map (materialize nodes f)).map
            DisplayNode.data = childBucket nodes n.id
        rw [List.map_map]
        calc (childBucket nodes n.id).map
              (DisplayNode.data ∘ materialize nodes f)
            = (childBucket nodes n.id).map id :=
              List.map_congr_left (fun c _ => materialize_data nodes f c)
          _ = childBucket nodes n.id := List.map_id _
      · obtain ⟨c, hc, hdc⟩ := mem_allDisplayList_of_map.mp hd
        obtain ⟨hcn, hck, hcp⟩ := mem_childBucket.mp hc
        have hkq : keptId nodes n.id = true := keptId_of_mem hn hk
        have hrank := rankOkB_spec hrk c hcn hck n.id hcp hkq
        have hbc := hbd c hcn
        have hfc : nodes.length - rk c.id ≤ f := by omega
        exact ih c hcn hck hfc d hdc

theorem build_local_correct (nodes : List TreeNodeT) (rk : String → Nat)
    (hrk : rankOkB nodes rk = true)
    (hbd : ∀ n ∈ nodes, rk n.id < nodes.length) :
    ∀ d ∈ allDisplayList (buildTreeStructure nodes),
      d.data ∈ nodes ∧ keptNode d.data = true
        ∧ d.children.map DisplayNode.data = childBucket nodes d.data.id := by
  intro d hd
  rw [buildTreeStructure] at hd
  obtain ⟨r, hr, hdr⟩ := mem_allDisplayList_of_map.mp hd
  obtain ⟨hrn, hrk2, _⟩ := mem_rootBucket.mp hr
  exact materialize_correct nodes rk hrk hbd nodes.length r hrn hrk2
    (Nat.sub_le _ _) d hdr

theorem build_map_data (nodes : List TreeNodeT) :
    (buildTreeStructure nodes).map DisplayNode.data = rootBucket nodes := by
  rw [buildTreeStructure, List.map_map]
  calc (rootBucket nodes).map
        (DisplayNode.data ∘ materialize nodes nodes.length)
      = (rootBucket nodes).map id :=
        List.map_congr_left
          (fun c _ => materialize_data nodes nodes.length c)
    _ = rootBucket nodes := List.map_id _

theorem sum_if_eq_count (l : List DisplayNode) (q : String) :
    (l.map (fun e => if e.data.id == q then 1 else 0)).sum
      = (l.map (fun e => e.data.id)).count q := by
  induction l with
  | nil => rfl
  | cons x xs ih =>
      simp only [List.map_cons, List.sum_cons, List.count_cons]
      rw [ih]
      cases h : (x.data.id == q) <;> simp [h, Nat.add_comm]

theorem rootBucket_sublist (nodes : List TreeNodeT) :
    (rootBucket nodes).Sublist nodes := List.filter_sublist _

theorem childBucket_sublist (nodes : List TreeNodeT) (p : String) :
    (childBucket nodes p).Sublist nodes := List.filter_sublist _

theorem occ_formula (nodes : List TreeNodeT) (rk : String → Nat)
    (hrk : rankOkB nodes rk = true)
    (hbd : ∀ n ∈ nodes, rk n.id < nodes.length) (i : String) :
    occList (buildTreeStructure nodes) i
      = ((rootBucket nodes).map TreeNodeT.id).count i
        + ((allDisplayList (buildTreeStructure nodes)).map
            (fun e =>
              ((childBucket nodes e.data.id).map TreeNodeT.id).count i)).sum
    := by
  have hloc := build_local_correct nodes rk hrk hbd
  rw [occList_decomp nodes (buildTreeStructure nodes) i
    (fun e he => (hloc e he).2.2)]
  have hmap : (buildTreeStructure nodes).map (fun d => d.data.id)
      = (rootBucket nodes).map TreeNodeT.id := by
    have h2 : ((buildTreeStructure nodes).map DisplayNode.data).map
        TreeNodeT.id = (rootBucket nodes).map TreeNodeT.id := by
      rw [build_map_data]
    rw [List.map_map] at h2
    exact h2
  rw [hmap]

theorem occ_eq_one (nodes : List TreeNodeT) (rk : String → Nat)
    (hnd : (nodes.map TreeNodeT.id).Nodup)
    (hrk : rankOkB nodes rk = true)
    (hbd : ∀ n ∈ nodes, rk n.id < nodes.length) :
    ∀ k (t : TreeNodeT), t ∈ nodes → keptNode t = true → rk t.id ≤ k →
      occList (buildTreeStructure nodes) t.id = 1 := by
  intro k
  induction k using Nat.strong_induction_on with
  | _ k ih =>
    intro t htn htk hrank
    have hloc := build_local_correct nodes rk hrk hbd
    have hform := occ_formula nodes rk hrk hbd t.id
    rcases htp : truthyParent t with _ | q
    · have htr : t ∈ rootBucket nodes :=
        mem_rootBucket.mpr ⟨htn, htk, fun q hq => by
          rw [htp] at hq
          cases hq⟩
      have hc1 : ((rootBucket nodes).map TreeNodeT.id).count t.id = 1 := by
        rw [count_id_eq_one hnd (rootBucket_sublist nodes) htn, if_pos htr]
      have hc2 : ((allDisplayList (buildTreeStructure nodes)).map
          (fun e =>
            ((childBucket nodes e.data.id).map TreeNodeT.id).count
              t.id)).sum = 0 := by
        apply List.sum_eq_zero
        intro x hx
        obtain ⟨e, _, hxe⟩ := List.mem_map.mp hx
        rw [← hxe, count_id_eq_one hnd (childBucket_sublist nodes _) htn,
          if_neg]
        intro hmem
        have h2 := (mem_childBucket.mp hmem).2.2
        rw [htp] at h2
        cases h2
      rw [hform, hc1, hc2]
    · by_cases hkq : keptId nodes q = true
      · obtain ⟨p, hp, hpk, hpq⟩ := exists_of_keptId hkq
        have hnr : t ∉ rootBucket nodes := by
          intro hmem
          have h2 := (mem_rootBucket.mp hmem).2.2 q htp
          rw [hkq] at h2
          cases h2
        have hc1 : ((rootBucket nodes).map TreeNodeT.id).count t.id = 0 := by
          rw [count_id_eq_one hnd (rootBucket_sublist nodes) htn, if_neg hnr]
        have hterm : ∀ e ∈ allDisplayList (buildTreeStructure nodes),
            ((childBucket nodes e.data.id).map TreeNodeT.id).count t.id
              = if e.data.id == q then 1 else 0 := by
          intro e _
          rw [count_id_eq_one hnd (childBucket_sublist nodes _) htn]
          by_cases hm : t ∈ childBucket nodes e.data.id
          · rw [if_pos hm]
            have h2 := (mem_childBucket.mp hm).2.2
            rw [htp] at h2
            have h3 : q = e.data.id := by injection h2
            rw [if_pos (by simp [h3])]
          · rw [if_neg hm, if_neg]
            intro hbe
            have heq : e.data.id = q := by simpa using hbe
            exact hm (mem_childBucket.mpr ⟨htn, htk, by rw [htp, heq]⟩)
        have hsum : ((allDisplayList (buildTreeStructure nodes)).map
            (fun e =>
              ((childBucket nodes e.data.id).map TreeNodeT.id).count
                t.id)).sum
            = occList (buildTreeStructure nodes) q := by
          rw [List.map_congr_left hterm, sum_if_eq_count,
            ← occList_eq_count]
        have hrankp : rk q < rk t.id := rankOkB_spec hrk t htn htk q htp hkq
        have hplt : rk p.id < k := by
          rw [hpq]
          omega
        have hop := ih (rk p.id) hplt p hp hpk (le_refl _)
        rw [hform, hc1, hsum, show q = p.id from hpq.symm, hop]
      · have hkq2 : keptId nodes q = false := by simpa using hkq
        have htr : t ∈ rootBucket nodes :=
          mem_rootBucket.mpr ⟨htn, htk, fun q2 hq2 => by
            rw [htp] at hq2
            have h3 : q = q2 := by injection hq2
            rw [← h3]
            exact hkq2⟩
        have hc1 : ((rootBucket nodes).map TreeNodeT.id).count t.id = 1 := by
          rw [count_id_eq_one hnd (rootBucket_sublist nodes) htn, if_pos htr]
        have hc2 : ((allDisplayList (buildTreeStructure nodes)).map
            (fun e =>
              ((childBucket nodes e.data.id).map TreeNodeT.id).count
                t.id)).sum = 0 := by
          apply List.sum_eq_zero
          intro x hx
          obtain ⟨e, he, hxe⟩ := List.mem_map.mp hx
          rw [← hxe, count_id_eq_one hnd (childBucket_sublist nodes _) htn,
            if_neg]
          intro hmem
          have h2 := (mem_childBucket.mp hmem).2.2
          rw [htp] at h2
          have heid : q = e.data.id := by injection h2
          have hek := hloc e he
          have hkid : keptId nodes e.data.id = true :=
            keptId_of_mem hek.1 hek.2.1
          rw [← heid, hkq2] at hkid
          cases hkid
        rw [hform, hc1, hc2]

/-- Claim C8 (amended): for inputs with pairwise-distinct node ids and acyclic
parent references (witnessed by a rank function), `buildTreeStructure` returns
a forest whose top level is exactly the kept (non-sentinel) nodes without a
kept truthy parent, in input order; every display node in the forest is a kept
input node whose children are exactly the kept nodes naming it as parent, in
input order (siblings keep their relative input order — no sorting by
position); sentinels are omitted; and every kept input node appears exactly
once. -/
theorem c8_build_tree_amended (nodes : List TreeNodeT) (rk : String → Nat)
    (hnd : (nodes.map TreeNodeT.id).Nodup)
    (hrk : rankOkB nodes rk = true)
    (hbd : ∀ n ∈ nodes, rk n.id < nodes.length) :
    (buildTreeStructure nodes).map DisplayNode.data = rootBucket nodes
      ∧ (∀ d ∈ allDisplayList (buildTreeStructure nodes),
          keptNode d.data = true
            ∧ d.children.map DisplayNode.data = childBucket nodes d.data.id)
      ∧ (∀ t ∈ nodes, keptNode t = true →
          occList (buildTreeStructure nodes) t.id = 1) := by
  refine ⟨build_map_data nodes, ?_, ?_⟩
  · intro d hd
    have h := build_local_correct nodes rk hrk hbd d hd
    exact ⟨h.2.1, h.2.2⟩
  · intro t htn htk
    exact occ_eq_one nodes rk hnd hrk hbd (rk t.id) t htn htk (le_refl _)

/-- Witness for the amended C8 at a concrete two-node input (one root page,
one child page). -/
theorem c8_witness :
    (c8GoodNodes.map TreeNodeT.id).Nodup
      ∧ occList (buildTreeStructure c8GoodNodes) "r" = 1
      ∧ occList (buildTreeStructure c8GoodNodes) "c" = 1
      ∧ (buildTreeStructure c8GoodNodes).map DisplayNode.data
          = rootBucket c8GoodNodes := by
  have h := c8_build_tree_amended c8GoodNodes
    (fun i => if i == "c" then 1 else 0) (by decide) (by decide) (by decide)
  exact ⟨by decide, h.2.2 c8RootRow (by decide) (by decide),
    h.2.2 c8LeafRow (by decide) (by decide), h.1⟩

end DbWiki
